import Mathlib

/-!
Verification of the dagviz abstract-plot builder (`dagviz/__init__.py`).

The source `make_abstract_plot` selects a node sequence (possibly filtered
to the ancestors of a target node union the target) and builds one row per
node, recording label, predecessors and successor count; `render_svg`
renders the plot produced with the default arguments.  Nodes in the source
are arbitrary Python values; we embed them as integers or strings, which
suffices to express Python truthiness and `str()` conversion.
-/

namespace Dagviz

/-- A Python value usable as a graph node: an integer or a string.
This captures Python truthiness (`0` and `""` are falsy) and `str()`. -/
inductive PyVal where
  | pint : Int → PyVal
  | pstr : String → PyVal
deriving DecidableEq, Repr

/-- Python truthiness of a value: `bool(v)`. -/
def PyVal.truthy : PyVal → Bool
  | .pint n => n != 0
  | .pstr s => s != ""

/-- Python `str(v)`. -/
def PyVal.toStr : PyVal → String
  | .pint n => toString n
  | .pstr s => s

/-- Python truthiness of an optional value; `None` is falsy. -/
def pyTruthy : Option PyVal → Bool
  | none => false
  | some v => v.truthy

/-- A directed graph in the shape `make_abstract_plot` reads from networkx:
a node list, a directed edge list, and the `label` node attributes (present
only for the nodes that carry one). -/
structure Graph where
  nodes : List PyVal
  edges : List (PyVal × PyVal)
  labelAttrs : List (PyVal × String)
deriving DecidableEq, Repr

/-- Embeds `G.pred[nd]`: the predecessors of `nd`, read off the edge list. -/
def Graph.preds (G : Graph) (nd : PyVal) : List PyVal :=
  (G.edges.filter (fun e => e.2 == nd)).map (fun e => e.1)

/-- Embeds `len(G.succ[nd])`: the number of successors of `nd`. -/
def Graph.succCount (G : Graph) (nd : PyVal) : Nat :=
  ((G.edges.filter (fun e => e.1 == nd)).map (fun e => e.2)).length

/-- In-degree of `nd`: the number of edges into `nd`. -/
def Graph.inDegree (G : Graph) (nd : PyVal) : Nat :=
  (G.preds nd).length

/-- Embeds `G.nodes[nd].get("label", str(nd))`: the stored label attribute if
present, else the string form of the node identifier. -/
def Graph.labelOf (G : Graph) (nd : PyVal) : String :=
  match G.labelAttrs.find? (fun p => p.1 == nd) with
  | some p => p.2
  | none => nd.toStr

/-- Bounded reachability along the edge list: `reachF edges k a b` holds
when some directed path of at most `k` edges leads from `a` to `b`. -/
def reachF (edges : List (PyVal × PyVal)) : Nat → PyVal → PyVal → Bool
  | 0, a, b => a == b
  | k + 1, a, b =>
      a == b || edges.any (fun e => e.1 == a && reachF edges k e.2 b)

/-- Embeds `nx.ancestors(G, t)`: the nodes of `G`, other than `t`, from which a
directed path reaches `t`.  In a DAG every path has fewer edges than there
are nodes, so fuel `G.nodes.length` is exhaustive. -/
def Graph.pyAncestors (G : Graph) (t : PyVal) : List PyVal :=
  G.nodes.filter (fun n => n != t && reachF G.edges G.nodes.length n t)

/-- Modelled from the spec: a Row of the AbstractPlot (`dagviz/abstract.py`
is not in the source tree).  Per the data model, a row records a display
label, the node reference it represents, the set of predecessor node
references feeding into it, and the count of successors. -/
structure Row where
  label : String
  node_id : Option PyVal
  inputs : List PyVal
  out_degree : Nat
deriving DecidableEq, Repr

/-- Modelled from the spec: `row.add_input(pred)` records one more
predecessor reference on the row. -/
def Row.add_input (r : Row) (p : PyVal) : Row :=
  { r with inputs := r.inputs ++ [p] }

/-- Modelled from the spec: `row.add_node(nd, out_degree)` places the node
on the row and records its successor count. -/
def Row.add_node (r : Row) (nd : PyVal) (d : Nat) : Row :=
  { r with node_id := some nd, out_degree := d }

/-- Modelled from the spec: the AbstractPlot is an ordered sequence of
rows, one per input node, in input order. -/
structure AbstractPlot where
  rows : List Row
deriving DecidableEq, Repr

/-- Modelled from the spec: `plot.add_row(label)` appends a fresh row with
the given label and no recorded node, inputs or successors yet. -/
def AbstractPlot.add_row (plot : AbstractPlot) (label : String) : AbstractPlot × Row :=
  let row : Row := { label := label, node_id := none, inputs := [], out_degree := 0 }
  (⟨plot.rows ++ [row]⟩, row)

/-- The loop body of `make_abstract_plot` for one node `nd`: add a row
labelled `G.nodes[nd].get("label", str(nd))`, add each predecessor as an
input, then add the node with its successor count. -/
def buildRow (G : Graph) (nd : PyVal) : Row :=
  let row0 : Row := { label := G.labelOf nd, node_id := none, inputs := [], out_degree := 0 }
  let row1 := (G.preds nd).foldl Row.add_input row0
  row1.add_node nd (G.succCount nd)

/-- The `for nd in sequence` loop of `make_abstract_plot`: one row is
appended to the plot per node of the sequence, in sequence order. -/
def buildPlot (G : Graph) (seq : List PyVal) : AbstractPlot :=
  seq.foldl (fun plot nd => ⟨plot.rows ++ [buildRow G nd]⟩) ⟨[]⟩

/-- The `order` argument of `make_abstract_plot`: either a static sequence
of nodes or a callable producing a sequence from the graph. -/
inductive OrderArg where
  | staticSeq : List PyVal → OrderArg
  | callableOrd : (Graph → List PyVal) → OrderArg

/-- Embeds `order(G) if callable(order) else order`: the else-branch computation
of the node sequence. -/
def evalOrder (ord : OrderArg) (G : Graph) : List PyVal :=
  match ord with
  | .staticSeq l => l
  | .callableOrd f => f G

/-- The list comprehension of the ancestor branch:
`[node for node in order(G) if node in ancestors or node == target_node]`. -/
def filteredSeq (G : Graph) (t : PyVal) (seqAll : List PyVal) : List PyVal :=
  seqAll.filter (fun n => (G.pyAncestors t).contains n || n == t)

/-- The node sequence `make_abstract_plot` settles on, `none` on the error
paths: when the `target_node and include_ancestors` branch is taken, the
source first calls `nx.ancestors(G, target_node)` (which raises for a node
not in `G`) and then calls `order(G)` unconditionally (which raises
`TypeError` when `order` is a static sequence, not a callable). -/
def chooseSeq (G : Graph) (target : Option PyVal) (inc : Bool) (ord : OrderArg) :
    Option (List PyVal) :=
  match target with
  | some t =>
      if t.truthy && inc then
        if G.nodes.contains t then
          match ord with
          | .staticSeq _ => none
          | .callableOrd f => some (filteredSeq G t (f G))
        else none
      else some (evalOrder ord G)
  | none => some (evalOrder ord G)

/-- Embeds `make_abstract_plot(G, target_node=?, include_ancestors=?, order=?)`:
choose the node sequence, then build one row per node; `none` models an
uncaught Python exception. -/
def makeAbstractPlot (G : Graph) (target : Option PyVal) (inc : Bool) (ord : OrderArg) :
    Option AbstractPlot :=
  (chooseSeq G target inc ord).map (buildPlot G)

/-- Modelled from the spec: `render(plot, style)` (in `dagviz/render.py`,
not in the source tree) is a deterministic, stateless function of the
abstract plot and the style; we quantify over all such functions. -/
def render_svg {σ : Type} (render : AbstractPlot → σ → String) (style : σ)
    (ordFn : Graph → List PyVal) (G : Graph) (inc : Bool) : Option String :=
  (makeAbstractPlot G none inc (.callableOrd ordFn)).map (fun p => render p style)

/-! ### Helper lemmas shared by the claim theorems -/

theorem foldl_add_input (l : List PyVal) (r : Row) :
    l.foldl Row.add_input r = { r with inputs := r.inputs ++ l } := by
  induction l generalizing r with
  | nil => simp
  | cons p l ih =>
      simp only [List.foldl_cons, ih]
      simp [Row.add_input]

theorem buildRow_eq (G : Graph) (nd : PyVal) :
    buildRow G nd =
      { label := G.labelOf nd, node_id := some nd, inputs := G.preds nd,
        out_degree := G.succCount nd } := by
  simp [buildRow, foldl_add_input, Row.add_node]

theorem buildPlot_aux (G : Graph) (seq : List PyVal) (acc : List Row) :
    seq.foldl (fun plot nd => AbstractPlot.mk (plot.rows ++ [buildRow G nd]))
        (AbstractPlot.mk acc) =
      AbstractPlot.mk (acc ++ seq.map (buildRow G)) := by
  induction seq generalizing acc with
  | nil => simp
  | cons nd seq ih => simp [ih]

theorem buildPlot_eq (G : Graph) (seq : List PyVal) :
    buildPlot G seq = AbstractPlot.mk (seq.map (buildRow G)) := by
  simpa using buildPlot_aux G seq []

theorem buildPlot_node_ids (G : Graph) (seq : List PyVal) :
    (buildPlot G seq).rows.map Row.node_id = seq.map some := by
  simp [buildPlot_eq, buildRow_eq, Function.comp]

/-! ### Concrete graphs used in witnesses and counterexamples -/

/-- A two-node graph with one edge, used as a generic witness input. -/
def exG : Graph := ⟨[.pint 1, .pint 2], [(.pint 1, .pint 2)], []⟩

/-! ### Claim theorems -/

/-- Claim C2: `render_svg` calls `make_abstract_plot` without a target
node, so `include_ancestors` never triggers any filtering and the output
is the same string for both flag values, for every graph, order function
and style. -/
theorem render_svg_ignores_include_ancestors {σ : Type}
    (render : AbstractPlot → σ → String) (style : σ)
    (ordFn : Graph → List PyVal) (G : Graph) :
    render_svg render style ordFn G true = render_svg render style ordFn G false := rfl

/-- Claim C6: rendering is a deterministic, stateless function of its
inputs: two `render_svg` calls on identical graph, order, style and flag
produce identical output strings. -/
theorem render_svg_deterministic {σ : Type}
    (render : AbstractPlot → σ → String) (style1 style2 : σ)
    (f1 f2 : Graph → List PyVal) (G1 G2 : Graph) (b1 b2 : Bool)
    (hs : style1 = style2) (hf : f1 = f2) (hG : G1 = G2) (hb : b1 = b2) :
    render_svg render style1 f1 G1 b1 = render_svg render style2 f2 G2 b2 := by
  subst hs; subst hf; subst hG; subst hb; rfl

/-- Witness for C6 at a concrete graph, order, style and flag. -/
theorem render_svg_deterministic_witness :
    render_svg (fun _ _ => "svg") () (fun g => g.nodes) exG true =
      render_svg (fun _ _ => "svg") () (fun g => g.nodes) exG true :=
  render_svg_deterministic (fun _ _ => "svg") () () (fun g => g.nodes)
    (fun g => g.nodes) exG exG true true rfl rfl rfl rfl

/-- Claim C4: whenever `make_abstract_plot` settles on a node sequence
(the sequence the source binds to `sequence`), the resulting plot has
exactly one row per node of that sequence and the top-to-bottom row order
equals the sequence order. -/
theorem row_count_and_order (G : Graph) (target : Option PyVal) (inc : Bool)
    (ord : OrderArg) (seq : List PyVal)
    (h : chooseSeq G target inc ord = some seq) :
    makeAbstractPlot G target inc ord = some (buildPlot G seq) ∧
    (buildPlot G seq).rows.length = seq.length ∧
    (buildPlot G seq).rows.map Row.node_id = seq.map some := by
  refine ⟨by simp [makeAbstractPlot, h], ?_, buildPlot_node_ids G seq⟩
  simp [buildPlot_eq]

/-- Witness for C4 at a concrete graph and static order. -/
theorem row_count_and_order_witness :
    chooseSeq exG none false (.staticSeq [.pint 1, .pint 2]) = some [.pint 1, .pint 2] ∧
    (makeAbstractPlot exG none false (.staticSeq [.pint 1, .pint 2]) =
        some (buildPlot exG [.pint 1, .pint 2]) ∧
      (buildPlot exG [.pint 1, .pint 2]).rows.length = [PyVal.pint 1, .pint 2].length ∧
      (buildPlot exG [.pint 1, .pint 2]).rows.map Row.node_id =
        [PyVal.pint 1, .pint 2].map some) :=
  ⟨rfl, row_count_and_order exG none false (.staticSeq [.pint 1, .pint 2])
    [.pint 1, .pint 2] rfl⟩

theorem mem_rows_of_make (G : Graph) (target : Option PyVal) (inc : Bool)
    (ord : OrderArg) (plot : AbstractPlot)
    (h : makeAbstractPlot G target inc ord = some plot)
    (r : Row) (hr : r ∈ plot.rows) : ∃ nd, r = buildRow G nd := by
  obtain ⟨seq, hseq, hplot⟩ : ∃ seq, chooseSeq G target inc ord = some seq ∧
      buildPlot G seq = plot := by
    cases hc : chooseSeq G target inc ord with
    | none => simp [makeAbstractPlot, hc] at h
    | some s => exact ⟨s, rfl, by simpa [makeAbstractPlot, hc] using h⟩
  subst hplot
  rw [buildPlot_eq] at hr
  simp only [List.mem_map] at hr
  obtain ⟨nd', _, rfl⟩ := hr
  exact ⟨nd', rfl⟩

/-- Claim C5: every row placed by `make_abstract_plot` for a node `nd`
records as inputs exactly the predecessors of `nd` (as many as `nd`'s
in-degree) and an `out_degree` equal to `nd`'s number of successors. -/
theorem row_inputs_and_out_degree (G : Graph) (target : Option PyVal) (inc : Bool)
    (ord : OrderArg) (plot : AbstractPlot)
    (h : makeAbstractPlot G target inc ord = some plot)
    (r : Row) (hr : r ∈ plot.rows) (nd : PyVal) (hnd : r.node_id = some nd) :
    r.inputs = G.preds nd ∧ r.inputs.length = G.inDegree nd ∧
    r.out_degree = G.succCount nd := by
  obtain ⟨nd', rfl⟩ := mem_rows_of_make G target inc ord plot h r hr
  rw [buildRow_eq] at hnd ⊢
  simp only [Option.some.injEq] at hnd
  subst hnd
  exact ⟨rfl, rfl, rfl⟩

/-- Witness for C5 at a concrete plot: the row for node 2 of `exG`. -/
theorem row_inputs_and_out_degree_witness :
    makeAbstractPlot exG none false (.staticSeq [.pint 1, .pint 2]) =
        some (buildPlot exG [.pint 1, .pint 2]) ∧
    buildRow exG (.pint 2) ∈ (buildPlot exG [.pint 1, .pint 2]).rows ∧
    (buildRow exG (.pint 2)).node_id = some (.pint 2) ∧
    ((buildRow exG (.pint 2)).inputs = exG.preds (.pint 2) ∧
      (buildRow exG (.pint 2)).inputs.length = exG.inDegree (.pint 2) ∧
      (buildRow exG (.pint 2)).out_degree = exG.succCount (.pint 2)) :=
  ⟨rfl, by decide, by decide,
    row_inputs_and_out_degree exG none false (.staticSeq [.pint 1, .pint 2])
      (buildPlot exG [.pint 1, .pint 2]) rfl (buildRow exG (.pint 2)) (by decide)
      (.pint 2) (by decide)⟩

/-- Claim C7: the label of the row placed for `nd` is the node's `label`
attribute when present, and otherwise `str(nd)`. -/
theorem row_label_default (G : Graph) (target : Option PyVal) (inc : Bool)
    (ord : OrderArg) (plot : AbstractPlot)
    (h : makeAbstractPlot G target inc ord = some plot)
    (r : Row) (hr : r ∈ plot.rows) (nd : PyVal) (hnd : r.node_id = some nd) :
    r.label = G.labelOf nd ∧
    (∀ p, G.labelAttrs.find? (fun q => q.1 == nd) = some p → r.label = p.2) ∧
    (G.labelAttrs.find? (fun q => q.1 == nd) = none → r.label = nd.toStr) := by
  obtain ⟨nd', rfl⟩ := mem_rows_of_make G target inc ord plot h r hr
  rw [buildRow_eq] at hnd ⊢
  simp only [Option.some.injEq] at hnd
  subst hnd
  refine ⟨rfl, ?_, ?_⟩
  · intro p hp
    simp [Graph.labelOf, hp]
  · intro hp
    simp [Graph.labelOf, hp]

/-- A graph where node 1 carries a label attribute and node 2 does not. -/
def labG : Graph := ⟨[.pint 1, .pint 2], [], [(.pint 1, "one")]⟩

/-- Witness for C7: in `labG` the row for node 1 shows the stored label
attribute while node 2 falls back to the default string form. -/
theorem row_label_default_witness :
    makeAbstractPlot labG none false (.staticSeq [.pint 1, .pint 2]) =
      some (buildPlot labG [.pint 1, .pint 2]) ∧
    ((buildRow labG (.pint 1)).label = labG.labelOf (.pint 1) ∧
      (∀ p, labG.labelAttrs.find? (fun q => q.1 == .pint 1) = some p →
        (buildRow labG (.pint 1)).label = p.2) ∧
      (labG.labelAttrs.find? (fun q => q.1 == .pint 1) = none →
        (buildRow labG (.pint 1)).label = PyVal.toStr (.pint 1))) :=
  ⟨rfl,
    row_label_default labG none false (.staticSeq [.pint 1, .pint 2])
      (buildPlot labG [.pint 1, .pint 2]) rfl
      (buildRow labG (.pint 1)) (by decide) (.pint 1) (by decide)⟩

/-- Claim C10: the ancestor branch is guarded by the Python truthiness of
`target_node`, so any falsy target (`None`, `0`, `""`) skips the filtering
entirely even with `include_ancestors=True`: the plot has one row per node
of the supplied order, hence one per node of `G` whenever the order covers
all nodes. -/
theorem falsy_target_no_filtering (G : Graph) (target : Option PyVal) (ord : OrderArg)
    (ht : pyTruthy target = false) :
    makeAbstractPlot G target true ord = some (buildPlot G (evalOrder ord G)) ∧
    (buildPlot G (evalOrder ord G)).rows.map Row.node_id = (evalOrder ord G).map some ∧
    ((∀ n ∈ G.nodes, n ∈ evalOrder ord G) →
      ∀ n ∈ G.nodes, some n ∈ (buildPlot G (evalOrder ord G)).rows.map Row.node_id) := by
  have hseq : chooseSeq G target true ord = some (evalOrder ord G) := by
    cases target with
    | none => rfl
    | some t =>
        simp only [pyTruthy] at ht
        simp [chooseSeq, ht]
  refine ⟨by simp [makeAbstractPlot, hseq], buildPlot_node_ids G _, ?_⟩
  intro hc n hn
  rw [buildPlot_node_ids]
  exact List.mem_map_of_mem some (hc n hn)

/-- A graph with a falsy node `0` that has the ancestor `1` and an
unrelated node `2`, used against the truthiness guard. -/
def cexG : Graph := ⟨[.pint 1, .pint 0, .pint 2], [(.pint 1, .pint 0)], []⟩

/-- Witness for C10: target `0` is falsy, so with `include_ancestors=True`
no filtering happens on `cexG`. -/
theorem falsy_target_no_filtering_witness :
    pyTruthy (some (.pint 0)) = false ∧
    (makeAbstractPlot cexG (some (.pint 0)) true
          (.staticSeq [.pint 1, .pint 0, .pint 2]) =
        some (buildPlot cexG (evalOrder (.staticSeq [.pint 1, .pint 0, .pint 2]) cexG)) ∧
      (buildPlot cexG (evalOrder (.staticSeq [.pint 1, .pint 0, .pint 2]) cexG)).rows.map
          Row.node_id =
        (evalOrder (.staticSeq [.pint 1, .pint 0, .pint 2]) cexG).map some ∧
      ((∀ n ∈ cexG.nodes, n ∈ evalOrder (.staticSeq [.pint 1, .pint 0, .pint 2]) cexG) →
        ∀ n ∈ cexG.nodes,
          some n ∈ (buildPlot cexG
            (evalOrder (.staticSeq [.pint 1, .pint 0, .pint 2]) cexG)).rows.map
              Row.node_id)) :=
  ⟨rfl, falsy_target_no_filtering cexG (some (.pint 0))
    (.staticSeq [.pint 1, .pint 0, .pint 2]) rfl⟩

/-- Counterexample for C1: for the falsy target node `0` of `cexG` (whose
ancestor set is `{1}`), the call keeps the unrelated node `2` in the plot,
so the row set is not `{T} ∪ ancestors(T)`; the claim fails for nodes
whose Python truth-value is false. -/
theorem ancestor_filtering_cex :
    makeAbstractPlot cexG (some (.pint 0)) true
        (.callableOrd (fun _ => [.pint 1, .pint 0, .pint 2])) =
      some (buildPlot cexG [.pint 1, .pint 0, .pint 2]) ∧
    (buildPlot cexG [.pint 1, .pint 0, .pint 2]).rows.map Row.node_id =
      [some (.pint 1), some (.pint 0), some (.pint 2)] ∧
    ¬ ((PyVal.pint 2) = (.pint 0) ∨ (PyVal.pint 2) ∈ cexG.pyAncestors (.pint 0)) :=
  ⟨rfl, by decide, by decide⟩

/-- Claim C1 as amended: for a target node `t` of `G` whose Python
truth-value is true, the plot rows are exactly the supplied order filtered
to `{t} ∪ ancestors(t)`, in the order's relative order, and the row node
set equals `{t} ∪ ancestors(t)` whenever the order covers all nodes. -/
theorem ancestor_filtering_truthy_target (G : Graph) (t : PyVal)
    (f : Graph → List PyVal)
    (ht : t.truthy = true) (htm : t ∈ G.nodes)
    (hord : ∀ n ∈ G.nodes, n ∈ f G) :
    makeAbstractPlot G (some t) true (.callableOrd f) =
      some (buildPlot G (filteredSeq G t (f G))) ∧
    (buildPlot G (filteredSeq G t (f G))).rows.map Row.node_id =
      (filteredSeq G t (f G)).map some ∧
    ∀ n, some n ∈ (buildPlot G (filteredSeq G t (f G))).rows.map Row.node_id ↔
      (n = t ∨ n ∈ G.pyAncestors t) := by
  have hseq : chooseSeq G (some t) true (.callableOrd f) =
      some (filteredSeq G t (f G)) := by
    have htm' : G.nodes.contains t = true := by
      simpa [List.contains, List.elem_eq_mem] using htm
    simp [chooseSeq, ht, htm', htm]
  refine ⟨by simp [makeAbstractPlot, hseq], buildPlot_node_ids G _, ?_⟩
  intro n
  rw [buildPlot_node_ids]
  constructor
  · intro hmem
    have hn : n ∈ filteredSeq G t (f G) := by
      obtain ⟨m, hm, hme⟩ := List.mem_map.mp hmem
      cases hme
      exact hm
    have := List.mem_filter.mp hn
    rcases Bool.or_eq_true _ _ |>.mp this.2 with hanc | heq
    · right
      simpa [List.contains, List.elem_eq_mem] using hanc
    · left
      exact eq_of_beq heq
  · intro hcase
    refine List.mem_map_of_mem some ?_
    rcases hcase with rfl | hanc
    · exact List.mem_filter.mpr ⟨hord n htm, by simp⟩
    · have hnn : n ∈ G.nodes := (List.mem_filter.mp hanc).1
      refine List.mem_filter.mpr ⟨hord n hnn, ?_⟩
      simp only [List.contains, List.elem_eq_mem, Bool.or_eq_true, decide_eq_true_eq,
        beq_iff_eq]
      exact Or.inl hanc

/-- A graph for the C1 witness: node 2 is truthy, has ancestor 1, and
node 3 is unrelated. -/
def wG : Graph := ⟨[.pint 1, .pint 2, .pint 3], [(.pint 1, .pint 2)], []⟩

/-- Witness for C1 (amended) at `wG` with target node `2`. -/
theorem ancestor_filtering_truthy_target_witness :
    ((PyVal.pint 2).truthy = true ∧ PyVal.pint 2 ∈ wG.nodes ∧
      ∀ n ∈ wG.nodes, n ∈ (fun _ => [PyVal.pint 1, .pint 2, .pint 3]) wG) ∧
    (makeAbstractPlot wG (some (.pint 2)) true
          (.callableOrd (fun _ => [PyVal.pint 1, .pint 2, .pint 3])) =
        some (buildPlot wG (filteredSeq wG (.pint 2) [PyVal.pint 1, .pint 2, .pint 3])) ∧
      (buildPlot wG (filteredSeq wG (.pint 2) [PyVal.pint 1, .pint 2, .pint 3])).rows.map
          Row.node_id =
        (filteredSeq wG (.pint 2) [PyVal.pint 1, .pint 2, .pint 3]).map some ∧
      ∀ n, some n ∈ (buildPlot wG
            (filteredSeq wG (.pint 2) [PyVal.pint 1, .pint 2, .pint 3])).rows.map
              Row.node_id ↔
        (n = .pint 2 ∨ n ∈ wG.pyAncestors (.pint 2))) :=
  ⟨⟨rfl, by decide, by decide⟩,
    ancestor_filtering_truthy_target wG (.pint 2)
      (fun _ => [PyVal.pint 1, .pint 2, .pint 3]) rfl (by decide) (by decide)⟩

/-- A one-node graph used to exhibit the `TypeError` path of the ancestor
branch. -/
def exG3 : Graph := ⟨[.pint 1], [], []⟩

/-- Counterexample for C3: with a truthy target node and
`include_ancestors=True`, the source calls `order(G)` unconditionally, so a
static (non-callable) order raises `TypeError` instead of being used
directly as the row order. -/
theorem static_order_with_target_cex :
    makeAbstractPlot exG3 (some (.pint 1)) true (.staticSeq [.pint 1]) = none ∧
    ¬ makeAbstractPlot exG3 (some (.pint 1)) true (.staticSeq [.pint 1]) =
        some (buildPlot exG3 [.pint 1]) := by
  exact ⟨rfl, by decide⟩

/-- Claim C3 as amended: a static order sequence is used directly as the
row order whenever the ancestor branch is not taken, i.e. whenever
`target_node` is falsy or `include_ancestors` is false. -/
theorem static_order_used_directly (G : Graph) (target : Option PyVal) (inc : Bool)
    (l : List PyVal) (h : (pyTruthy target && inc) = false) :
    makeAbstractPlot G target inc (.staticSeq l) = some (buildPlot G l) ∧
    (buildPlot G l).rows.map Row.node_id = l.map some := by
  have hseq : chooseSeq G target inc (.staticSeq l) = some l := by
    cases target with
    | none => rfl
    | some t =>
        simp only [pyTruthy] at h
        simp [chooseSeq, h, evalOrder]
  exact ⟨by simp [makeAbstractPlot, hseq], buildPlot_node_ids G l⟩

/-- Witness for C3 (amended): truthy target but `include_ancestors=False`
uses the static order directly. -/
theorem static_order_used_directly_witness :
    (pyTruthy (some (.pint 1)) && false) = false ∧
    (makeAbstractPlot exG3 (some (.pint 1)) false (.staticSeq [.pint 1]) =
        some (buildPlot exG3 [.pint 1]) ∧
      (buildPlot exG3 [.pint 1]).rows.map Row.node_id = [PyVal.pint 1].map some) :=
  ⟨by decide, static_order_used_directly exG3 (some (.pint 1)) false [.pint 1] (by decide)⟩

/-- Modelled from the spec: a row at position `r` of the row order carries
a through-track when some edge is "in flight" there — its source row is
strictly above and its destination row strictly below `r` (the lane
numbering itself is the renderer's job and irrelevant to presence). -/
def rowHasThrough (seq : List PyVal) (edges : List (PyVal × PyVal)) (r : Nat) : Bool :=
  edges.any (fun e =>
    match seq.findIdx? (fun x => x == e.1), seq.findIdx? (fun x => x == e.2) with
    | some i, some j => decide (i < r) && decide (r < j)
    | _, _ => false)

/-- The Scenario A graph: edges A→B, A→C, B→D, C→D. -/
def GA : Graph :=
  ⟨[.pstr "A", .pstr "B", .pstr "C", .pstr "D"],
   [(.pstr "A", .pstr "B"), (.pstr "A", .pstr "C"),
    (.pstr "B", .pstr "D"), (.pstr "C", .pstr "D")], []⟩

/-- The Scenario A row order [A, B, C, D]. -/
def seqA : List PyVal := [.pstr "A", .pstr "B", .pstr "C", .pstr "D"]

/-- Counterexample for C9: in Scenario A the edge A→C is in flight at row
B (rows 0 < 1 < 2) and B→D at row C, so the conjunct "no row carries a
through-track, since no edge skips a row" is false; rows and inputs are as
claimed but through-tracks do occur. -/
theorem scenarioA_through_cex :
    ¬ ((makeAbstractPlot GA none false (.staticSeq seqA)).map
          (fun p => p.rows.length) = some 4 ∧
        (∃ r ∈ (buildPlot GA seqA).rows, r.node_id = some (.pstr "D") ∧
          r.inputs = [.pstr "B", .pstr "C"]) ∧
        ∀ i, i < 4 → rowHasThrough seqA GA.edges i = false) := by
  decide

/-- Claim C9 as amended: Scenario A yields 4 rows, the row for D has the
two inputs B and C, and the interior rows B and C each carry a
through-track (A→C over row B, B→D over row C) while rows A and D carry
none. -/
theorem scenarioA_rows_inputs_through :
    makeAbstractPlot GA none false (.staticSeq seqA) = some (buildPlot GA seqA) ∧
    (buildPlot GA seqA).rows.length = 4 ∧
    (∃ r ∈ (buildPlot GA seqA).rows, r.node_id = some (.pstr "D") ∧
      r.inputs = [.pstr "B", .pstr "C"]) ∧
    rowHasThrough seqA GA.edges 0 = false ∧
    rowHasThrough seqA GA.edges 1 = true ∧
    rowHasThrough seqA GA.edges 2 = true ∧
    rowHasThrough seqA GA.edges 3 = false :=
  ⟨rfl, by decide, by decide, by decide, by decide, by decide, by decide⟩

/-! ### State-threaded version of the builder, for the purity claim

Every access `make_abstract_plot` performs on the graph — the label
attribute lookup, `G.pred[nd]`, `len(G.succ[nd])`, `nx.ancestors` and the
node-membership check it implies — is a read of the networkx structure.
Threading the graph through each access makes that explicit: the final
graph state is provably the input graph. -/

/-- The loop body with the graph threaded through each access. -/
def buildRowSt (nd : PyVal) (G : Graph) : Row × Graph :=
  let p1 := (G.labelOf nd, G)
  let row0 : Row := { label := p1.1, node_id := none, inputs := [], out_degree := 0 }
  let p2 := (p1.2.preds nd, p1.2)
  let row1 := p2.1.foldl Row.add_input row0
  let p3 := (p2.2.succCount nd, p2.2)
  (row1.add_node nd p3.1, p3.2)

/-- The row loop with the graph threaded through each iteration. -/
def buildPlotSt (seq : List PyVal) (G : Graph) : AbstractPlot × Graph :=
  seq.foldl (fun acc nd =>
    let pr := buildRowSt nd acc.2
    (AbstractPlot.mk (acc.1.rows ++ [pr.1]), pr.2)) (AbstractPlot.mk [], G)

/-- Sequence selection with the graph threaded through each access. -/
def chooseSeqSt (G : Graph) (target : Option PyVal) (inc : Bool) (ord : OrderArg) :
    Option (List PyVal) × Graph :=
  match target with
  | some t =>
      if t.truthy && inc then
        let pm := (G.nodes.contains t, G)
        if pm.1 then
          let pa := (pm.2.pyAncestors t, pm.2)
          match ord with
          | .staticSeq _ => (none, pa.2)
          | .callableOrd f =>
              let po := (f pa.2, pa.2)
              (some (po.1.filter (fun n => pa.1.contains n || n == t)), po.2)
        else (none, pm.2)
      else (some (evalOrder ord G), G)
  | none => (some (evalOrder ord G), G)

/-- Embeds `make_abstract_plot` with the graph threaded through every access. -/
def makeAbstractPlotSt (G : Graph) (target : Option PyVal) (inc : Bool) (ord : OrderArg) :
    Option AbstractPlot × Graph :=
  let pc := chooseSeqSt G target inc ord
  match pc.1 with
  | none => (none, pc.2)
  | some seq =>
      let pb := buildPlotSt seq pc.2
      (some pb.1, pb.2)

theorem buildPlotSt_aux (seq : List PyVal) (G : Graph) (acc : List Row) :
    (seq.foldl (fun acc nd =>
        let pr := buildRowSt nd acc.2
        (AbstractPlot.mk (acc.1.rows ++ [pr.1]), pr.2)) (AbstractPlot.mk acc, G)) =
      (AbstractPlot.mk (acc ++ seq.map (buildRow G)), G) := by
  induction seq generalizing acc with
  | nil => simp
  | cons nd seq ih =>
      have hrow : buildRowSt nd G = (buildRow G nd, G) := rfl
      simp only [List.foldl_cons, hrow, List.map_cons]
      rw [ih (acc ++ [buildRow G nd])]
      simp

theorem buildPlotSt_eq (seq : List PyVal) (G : Graph) :
    buildPlotSt seq G = (buildPlot G seq, G) := by
  rw [buildPlot_eq]
  simpa [buildPlotSt] using buildPlotSt_aux seq G []

theorem chooseSeqSt_eq (G : Graph) (target : Option PyVal) (inc : Bool) (ord : OrderArg) :
    chooseSeqSt G target inc ord = (chooseSeq G target inc ord, G) := by
  unfold chooseSeqSt chooseSeq
  cases target with
  | none => rfl
  | some t =>
      cases hb : t.truthy && inc with
      | false => simp [hb]
      | true =>
          simp only [hb]
          cases hm : G.nodes.contains t with
          | false => simp [hm]
          | true =>
              simp only [hm]
              cases ord with
              | staticSeq l => simp
              | callableOrd f => simp [filteredSeq]

/-- Claim C8: `make_abstract_plot` is a pure function of its inputs —
threading the graph through every access it performs, the final graph
state equals the input graph unchanged, and the result agrees with the
direct functional definition; there is no other side effect. -/
theorem make_abstract_plot_pure (G : Graph) (target : Option PyVal) (inc : Bool)
    (ord : OrderArg) :
    (makeAbstractPlotSt G target inc ord).2 = G ∧
    (makeAbstractPlotSt G target inc ord).1 = makeAbstractPlot G target inc ord := by
  unfold makeAbstractPlotSt makeAbstractPlot
  rw [chooseSeqSt_eq]
  cases h : chooseSeq G target inc ord with
  | none => simp
  | some seq => simp [buildPlotSt_eq]

end Dagviz
